import Mathlib

/-!
Shallow embedding of the agent discovery and classification subsystem of the
belvedere repository (`crates/belvedere/src/agent_discovery.rs`): the role
taxonomy (`AgentRole`), the directory-name parser (`AgentDirectory::from_path`)
and the filesystem discovery scanner (`AgentDiscovery`).

Filesystem access is modelled by an explicit environment (`Fs`, `Env`): the
scanner consumes only "list immediate entries of a directory (which may fail,
and whose individual entries may fail)", "does a path exist" and "entry
metadata (which may fail)", exactly the primitives the Rust code uses.
Strings are modelled with Lean `String`; Rust `str::to_lowercase` is
modelled by per-character ASCII case folding (`Char.toLower`), which agrees
with Rust on comparisons against the ASCII role lexicon; Rust
`str::to_uppercase` is modelled by the ASCII fold extended with the Unicode
simple uppercase mapping of U+0131 (dotless i → `I`), a mapping Rust
applies and the plain ASCII fold drops.
-/

namespace Belvedere

/-- Model of Rust `str::to_lowercase` (ASCII case folding, per character). -/
def rustToLower (s : String) : String := String.mk (s.toList.map Char.toLower)

/-- Per-character model of Rust `char`-level uppercasing: the ASCII fold
`Char.toUpper` extended with the Unicode simple uppercase mapping of U+0131
(LATIN SMALL LETTER DOTLESS I → `I`), which Rust's full Unicode tables
contain and the plain ASCII fold drops. -/
def charToUpperRust (c : Char) : Char := if c = 'ı' then 'I' else c.toUpper

/-- Model of Rust `str::to_uppercase` (per character, via
`charToUpperRust`). -/
def rustToUpper (s : String) : String := String.mk (s.toList.map charToUpperRust)

/-- Agent roles in the Gas Town ecosystem (`enum AgentRole`). -/
inductive AgentRole where
  | Mayor
  | Polecat
  | Crew
  | Witness
  | Deacon
  | Unknown
  deriving DecidableEq, Repr

/-- Parse agent role from a directory name component (`AgentRole::from_name`):
match on the lowercased name, falling through to `Unknown`. -/
def AgentRole.from_name (name : String) : AgentRole :=
  let n := rustToLower name
  if n = "mayor" then AgentRole.Mayor
  else if n = "polecat" then AgentRole.Polecat
  else if n = "crew" then AgentRole.Crew
  else if n = "witness" then AgentRole.Witness
  else if n = "deacon" then AgentRole.Deacon
  else AgentRole.Unknown

/-- Canonical display name of a role (`impl Display for AgentRole`). -/
def AgentRole.display : AgentRole → String
  | AgentRole.Mayor => "Mayor"
  | AgentRole.Polecat => "Polecat"
  | AgentRole.Crew => "Crew"
  | AgentRole.Witness => "Witness"
  | AgentRole.Deacon => "Deacon"
  | AgentRole.Unknown => "Unknown"

/-- Model of Rust `OsStr`: either valid UTF-8 text or not; `to_str` succeeds
exactly on the valid case. -/
inductive OsStr where
  | valid (s : String)
  | invalid
  deriving DecidableEq, Repr

/-- Model of `OsStr::to_str`. -/
def OsStr.toStr : OsStr → Option String
  | OsStr.valid s => some s
  | OsStr.invalid => none

/-- Model of a filesystem path as its list of components. -/
structure Path where
  components : List OsStr
  deriving DecidableEq, Repr

/-- Model of `Path::file_name`: the final component, if any. -/
def Path.fileName (p : Path) : Option OsStr := p.components.getLast?

/-- Model of `Path::join` with a UTF-8 component. -/
def Path.join (p : Path) (s : String) : Path := ⟨p.components ++ [OsStr.valid s]⟩

/-- The textual basename of a path: `path.file_name()?.to_str()?`. -/
def Path.fileNameStr (p : Path) : Option String := p.fileName.bind OsStr.toStr

/-- Split a character list at the first occurrence of `sep`, if present. -/
def splitFirst (sep : Char) : List Char → Option (List Char × List Char)
  | [] => none
  | c :: cs =>
    if c = sep then some ([], cs)
    else (splitFirst sep cs).map (fun pr => (c :: pr.1, pr.2))

/-- Model of Rust `str::splitn(2, sep)`: at most two pieces, split at the
first occurrence of `sep` only. -/
def splitn2 (s : String) (sep : Char) : List String :=
  match splitFirst sep s.toList with
  | none => [s]
  | some (l, r) => [String.mk l, String.mk r]

/-- A discovered agent directory (`struct AgentDirectory`). -/
structure AgentDirectory where
  path : Path
  role : AgentRole
  instance_name : String
  instance_id : Option String
  deriving DecidableEq, Repr

/-- Parse an agent directory from a path (`AgentDirectory::from_path`):
extract the textual basename, split on the first hyphen, classify the
prefix and keep the remainder as the instance id. -/
def AgentDirectory.from_path (path : Path) : Option AgentDirectory := do
  let dirNameOs ← path.fileName
  let dirName ← dirNameOs.toStr
  let parts := splitn2 dirName '-'
  some { path := path
         role := AgentRole.from_name (parts.headD "")
         instance_name := dirName
         instance_id := parts[1]? }

/-- Model of `fs::Metadata` as used by the scanner. -/
structure Metadata where
  is_dir : Bool
  deriving DecidableEq, Repr

/-- Model of `fs::DirEntry`: its path and its (fallible) metadata. -/
structure DirEntry where
  path : Path
  metadata : Option Metadata
  deriving DecidableEq, Repr

/-- Model of the filesystem: listing a directory may fail (`read_dir` is
`none`), and each listed entry may itself fail (`none` entries are what
Rust's `entries.flatten()` drops). -/
structure Fs where
  read_dir : Path → Option (List (Option DirEntry))
  pathExists : Path → Bool

/-- The ambient environment: the user's home directory (if resolvable,
`dirs::home_dir`) and the filesystem. -/
structure Env where
  home_dir : Option Path
  fs : Fs

/-- Discovers agent directories from known locations
(`struct AgentDiscovery`). -/
structure AgentDiscovery where
  gastown_root : Option Path

/-- Body of the scanning loop of `scan_agents_directory`: a failed entry,
failed metadata, non-directory, unparsable path, or `Unknown` role
contributes nothing; otherwise the parsed record is kept. -/
def processEntry (oe : Option DirEntry) : Option AgentDirectory := do
  let entry ← oe
  let md ← entry.metadata
  if md.is_dir then
    let agent ← AgentDirectory.from_path entry.path
    if agent.role ≠ AgentRole.Unknown then some agent else none
  else none

/-- Scan a specific agents directory for agent subdirectories
(`AgentDiscovery::scan_agents_directory`). -/
def AgentDiscovery.scan_agents_directory (fs : Fs) (agents_dir : Path) :
    List AgentDirectory :=
  match fs.read_dir agents_dir with
  | none => []
  | some entries => entries.filterMap processEntry

/-- Discover standalone agents from `~/.gazetown/agents/`
(`AgentDiscovery::discover_standalone_agents`). -/
def AgentDiscovery.discover_standalone_agents (env : Env) :
    Option (List AgentDirectory) := do
  let home ← env.home_dir
  let agents_dir := (home.join ".gazetown").join "agents"
  if env.fs.pathExists agents_dir then
    some (AgentDiscovery.scan_agents_directory env.fs agents_dir)
  else
    none

/-- Body of the rig-scanning loop of `discover_rig_agents`: a failed entry or
failed metadata contributes nothing; a directory entry containing a
`.agents` sub-directory contributes that sub-directory's scan. -/
def rigEntry (fs : Fs) (oe : Option DirEntry) : List AgentDirectory :=
  match oe with
  | none => []
  | some entry =>
    match entry.metadata with
    | none => []
    | some md =>
      if md.is_dir then
        if fs.pathExists (entry.path.join ".agents") then
          AgentDiscovery.scan_agents_directory fs (entry.path.join ".agents")
        else []
      else []

/-- Discover in-rig agents (`AgentDiscovery::discover_rig_agents`). -/
def AgentDiscovery.discover_rig_agents (env : Env) (d : AgentDiscovery) :
    Option (List AgentDirectory) := do
  let root ← d.gastown_root
  if env.fs.pathExists root then
    match env.fs.read_dir root with
    | none => some []
    | some entries => some ((entries.map (rigEntry env.fs)).flatten)
  else
    none

/-- Discover all agent directories (`AgentDiscovery::discover_agents`):
extend an initially empty vector with the standalone results, then with the
rig results, each only when its scan produced something. -/
def AgentDiscovery.discover_agents (env : Env) (d : AgentDiscovery) :
    List AgentDirectory :=
  let agents : List AgentDirectory := []
  let agents :=
    match AgentDiscovery.discover_standalone_agents env with
    | some standalone => agents ++ standalone
    | none => agents
  let agents :=
    match AgentDiscovery.discover_rig_agents env d with
    | some rig_agents => agents ++ rig_agents
    | none => agents
  agents

/-- Example Gas Town root used to exercise the scanner on the layout of the
spec's rig-scan example: two rigs, one with a `.agents` folder holding
`mayor` and `polecat-1`, one without. -/
def exampleRoot : Path := ⟨[OsStr.valid "gt"]⟩

/-- First example rig directory (has a `.agents` folder). -/
def exampleRig1 : Path := ⟨[OsStr.valid "gt", OsStr.valid "rig1"]⟩

/-- Second example rig directory (no `.agents` folder). -/
def exampleRig2 : Path := ⟨[OsStr.valid "gt", OsStr.valid "rig2"]⟩

/-- The `.agents` folder of the first example rig. -/
def exampleRig1Agents : Path := exampleRig1.join ".agents"

/-- The `mayor` agent directory inside the first example rig. -/
def exampleMayorPath : Path := exampleRig1Agents.join "mayor"

/-- The `polecat-1` agent directory inside the first example rig. -/
def examplePolecatPath : Path := exampleRig1Agents.join "polecat-1"

/-- The second example rig's `.agents` sub-path (which does not exist). -/
def exampleRig2Agents : Path := exampleRig2.join ".agents"

/-- The example filesystem: the root lists the two rigs, the first rig's
`.agents` folder lists `mayor` and `polecat-1`, and nothing else is
readable; exactly the mentioned paths exist (in particular the second rig's
`.agents` sub-path does not). -/
def exampleFs : Fs where
  read_dir p :=
    if p = exampleRoot then
      some [some ⟨exampleRig1, some ⟨true⟩⟩, some ⟨exampleRig2, some ⟨true⟩⟩]
    else if p = exampleRig1Agents then
      some [some ⟨exampleMayorPath, some ⟨true⟩⟩,
            some ⟨examplePolecatPath, some ⟨true⟩⟩]
    else none
  pathExists p :=
    decide (p = exampleRoot) || decide (p = exampleRig1) ||
    decide (p = exampleRig2) || decide (p = exampleRig1Agents) ||
    decide (p = exampleMayorPath) || decide (p = examplePolecatPath)

/-- The example environment: no resolvable home directory, the example
filesystem. -/
def exampleEnv : Env := ⟨none, exampleFs⟩

/-- The example discovery configuration: the Gas Town root is configured to
the example root. -/
def exampleDiscovery : AgentDiscovery := ⟨some exampleRoot⟩

theorem char_toNat_ofNat {n : Nat} (h : n < 55296) : (Char.ofNat n).toNat = n := by
  have hv : n.isValidChar := Or.inl h
  rw [Char.ofNat, dif_pos hv]
  rfl

theorem char_toLower_toUpper (c : Char) : c.toUpper.toLower = c.toLower := by
  simp only [Char.toUpper, Char.toLower]
  by_cases h : c.toNat ≥ 97 ∧ c.toNat ≤ 122
  · rw [if_pos h]
    have h1 : (Char.ofNat (c.toNat - 32)).toNat = c.toNat - 32 :=
      char_toNat_ofNat (by omega)
    rw [h1, if_pos (by omega), if_neg (by omega)]
    have : c.toNat - 32 + 32 = c.toNat := by omega
    rw [this, Char.ofNat_toNat]
  · rw [if_neg h]

theorem char_toLower_toLower (c : Char) : c.toLower.toLower = c.toLower := by
  simp only [Char.toLower]
  by_cases h : c.toNat ≥ 65 ∧ c.toNat ≤ 90
  · rw [if_pos h]
    have h1 : (Char.ofNat (c.toNat + 32)).toNat = c.toNat + 32 :=
      char_toNat_ofNat (by omega)
    rw [if_neg (by rw [h1]; omega)]
  · rw [if_neg h, if_neg h]

theorem toList_mk (l : List Char) : (String.mk l).toList = l := rfl

theorem char_toLower_toUpperRust_of_ascii {c : Char} (h : c.toNat < 128) :
    (charToUpperRust c).toLower = c.toLower := by
  have hne : c ≠ 'ı' := by
    intro he
    subst he
    exact absurd h (by decide)
  simp only [charToUpperRust]
  rw [if_neg hne]
  exact char_toLower_toUpper c

theorem rustToLower_rustToUpper_of_ascii {s : String}
    (h : ∀ c ∈ s.toList, c.toNat < 128) :
    rustToLower (rustToUpper s) = rustToLower s := by
  simp only [rustToLower, rustToUpper, toList_mk, List.map_map]
  congr 1
  refine List.map_congr_left ?_
  intro c hc
  simp only [Function.comp_apply]
  exact char_toLower_toUpperRust_of_ascii (h c hc)

theorem rustToLower_rustToLower (s : String) :
    rustToLower (rustToLower s) = rustToLower s := by
  simp [rustToLower, toList_mk, List.map_map, Function.comp_def,
    char_toLower_toLower]

theorem splitFirst_eq_none {sep : Char} {l : List Char} :
    splitFirst sep l = none ↔ sep ∉ l := by
  induction l with
  | nil => simp [splitFirst]
  | cons c cs ih =>
    simp only [splitFirst]
    by_cases h : c = sep
    · simp [h]
    · simp only [if_neg h, Option.map_eq_none', ih, List.mem_cons]
      constructor
      · intro hn hmem
        rcases hmem with hmem | hmem
        · exact h hmem.symm
        · exact hn hmem
      · intro hn hmem
        exact hn (Or.inr hmem)

theorem splitFirst_eq_some {sep : Char} {l a b : List Char}
    (h : splitFirst sep l = some (a, b)) :
    l = a ++ sep :: b ∧ sep ∉ a := by
  induction l generalizing a b with
  | nil => simp [splitFirst] at h
  | cons c cs ih =>
    simp only [splitFirst] at h
    by_cases hc : c = sep
    · rw [if_pos hc] at h
      injection h with h
      injection h with h1 h2
      subst h1; subst h2; subst hc
      simp
    · rw [if_neg hc] at h
      cases hsf : splitFirst sep cs with
      | none => rw [hsf] at h; simp at h
      | some pr =>
        obtain ⟨pa, pb⟩ := pr
        rw [hsf] at h
        simp only [Option.map_some'] at h
        injection h with h
        injection h with h1 h2
        obtain ⟨hl, hna⟩ := ih hsf
        subst h2
        constructor
        · rw [← h1, hl]; simp
        · rw [← h1]
          intro hmem
          rcases List.mem_cons.mp hmem with hmem | hmem
          · exact hc hmem.symm
          · exact hna hmem

theorem takeWhile_append_sep {sep : Char} {a b : List Char} (hna : sep ∉ a) :
    (a ++ sep :: b).takeWhile (fun c => c ≠ sep) = a := by
  induction a with
  | nil => simp [List.takeWhile_cons]
  | cons x xs ih =>
    simp only [List.mem_cons, not_or] at hna
    simp only [List.cons_append, List.takeWhile_cons]
    rw [if_pos (by simp [Ne.symm hna.1]), ih hna.2]

theorem splitFirst_fst_eq_takeWhile {sep : Char} {l a b : List Char}
    (h : splitFirst sep l = some (a, b)) :
    a = l.takeWhile (fun c => c ≠ sep) := by
  obtain ⟨hl, hna⟩ := splitFirst_eq_some h
  rw [hl, takeWhile_append_sep hna]

theorem takeWhile_eq_self_of_not_mem {sep : Char} {l : List Char}
    (h : sep ∉ l) : l.takeWhile (fun c => c ≠ sep) = l := by
  induction l with
  | nil => rfl
  | cons c cs ih =>
    simp only [List.mem_cons, not_or] at h
    simp only [List.takeWhile_cons]
    rw [if_pos (by simp [Ne.symm h.1]), ih h.2]

theorem splitFirst_append {sep : Char} {a b : List Char} (h : sep ∉ a) :
    splitFirst sep (a ++ sep :: b) = some (a, b) := by
  induction a with
  | nil => simp [splitFirst]
  | cons x xs ih =>
    simp only [List.mem_cons, not_or] at h
    simp only [List.cons_append, splitFirst, List.append_eq]
    rw [if_neg (fun hx => h.1 hx.symm), ih h.2]
    rfl

theorem mk_toList (s : String) : String.mk s.toList = s := rfl

theorem processEntry_role_ne_unknown {oe : Option DirEntry} {a : AgentDirectory}
    (h : processEntry oe = some a) : a.role ≠ AgentRole.Unknown := by
  cases oe with
  | none => simp [processEntry] at h
  | some entry =>
    simp only [processEntry, Option.bind_eq_bind, Option.some_bind] at h
    cases hmd : entry.metadata with
    | none => rw [hmd] at h; simp at h
    | some md =>
      rw [hmd] at h
      simp only [Option.some_bind] at h
      by_cases hd : md.is_dir = true
      · rw [if_pos hd] at h
        cases hfp : AgentDirectory.from_path entry.path with
        | none => rw [hfp] at h; simp at h
        | some agent =>
          rw [hfp] at h
          simp only [Option.some_bind] at h
          by_cases hrole : agent.role ≠ AgentRole.Unknown
          · rw [if_pos hrole] at h
            injection h with h
            subst h
            exact hrole
          · rw [if_neg hrole] at h
            simp at h
      · rw [if_neg hd] at h
        simp at h

theorem mem_scan_role_ne_unknown {fs : Fs} {dir : Path} {a : AgentDirectory}
    (h : a ∈ AgentDiscovery.scan_agents_directory fs dir) :
    a.role ≠ AgentRole.Unknown := by
  unfold AgentDiscovery.scan_agents_directory at h
  cases hrd : fs.read_dir dir with
  | none => rw [hrd] at h; simp at h
  | some entries =>
    rw [hrd] at h
    obtain ⟨oe, _, hpe⟩ := List.mem_filterMap.mp h
    exact processEntry_role_ne_unknown hpe

theorem standalone_eq_scan {env : Env} {l : List AgentDirectory}
    (h : AgentDiscovery.discover_standalone_agents env = some l) :
    ∃ dir, l = AgentDiscovery.scan_agents_directory env.fs dir := by
  unfold AgentDiscovery.discover_standalone_agents at h
  cases hh : env.home_dir with
  | none => rw [hh] at h; simp at h
  | some home =>
    rw [hh] at h
    simp only [Option.bind_eq_bind, Option.some_bind] at h
    by_cases he : env.fs.pathExists ((home.join ".gazetown").join "agents") = true
    · rw [if_pos he] at h
      injection h with h
      exact ⟨_, h.symm⟩
    · rw [if_neg he] at h
      simp at h

theorem mem_rig_scan {env : Env} {d : AgentDiscovery} {l : List AgentDirectory}
    {a : AgentDirectory} (h : AgentDiscovery.discover_rig_agents env d = some l)
    (ha : a ∈ l) :
    ∃ dir, a ∈ AgentDiscovery.scan_agents_directory env.fs dir := by
  unfold AgentDiscovery.discover_rig_agents at h
  cases hr : d.gastown_root with
  | none => rw [hr] at h; simp at h
  | some root =>
    rw [hr] at h
    simp only [Option.bind_eq_bind, Option.some_bind] at h
    by_cases he : env.fs.pathExists root = true
    · rw [if_pos he] at h
      cases hrd : env.fs.read_dir root with
      | none =>
        rw [hrd] at h
        injection h with h
        subst h
        simp at ha
      | some entries =>
        rw [hrd] at h
        injection h with h
        subst h
        obtain ⟨sub, hsub, hain⟩ := List.mem_flatten.mp ha
        obtain ⟨oe, _, heq⟩ := List.mem_map.mp hsub
        subst heq
        unfold rigEntry at hain
        split at hain
        · simp at hain
        · split at hain
          · simp at hain
          · split at hain
            · split at hain
              · exact ⟨_, hain⟩
              · simp at hain
            · simp at hain
    · rw [if_neg he] at h
      simp at h

theorem mem_discover_agents {env : Env} {d : AgentDiscovery} {a : AgentDirectory}
    (h : a ∈ AgentDiscovery.discover_agents env d) :
    ∃ dir, a ∈ AgentDiscovery.scan_agents_directory env.fs dir := by
  unfold AgentDiscovery.discover_agents at h
  cases hstd : AgentDiscovery.discover_standalone_agents env with
  | none =>
    rw [hstd] at h
    cases hrig : AgentDiscovery.discover_rig_agents env d with
    | none => rw [hrig] at h; simp at h
    | some r =>
      rw [hrig] at h
      simp only [List.nil_append] at h
      exact mem_rig_scan hrig h
  | some s =>
    rw [hstd] at h
    cases hrig : AgentDiscovery.discover_rig_agents env d with
    | none =>
      rw [hrig] at h
      simp only [List.nil_append] at h
      obtain ⟨dir, hdir⟩ := standalone_eq_scan hstd
      exact ⟨dir, hdir ▸ h⟩
    | some r =>
      rw [hrig] at h
      simp only [List.nil_append, List.mem_append] at h
      rcases h with h | h
      · obtain ⟨dir, hdir⟩ := standalone_eq_scan hstd
        exact ⟨dir, hdir ▸ h⟩
      · exact mem_rig_scan hrig h

/-- Claim C1: role classification is a total function on strings — every
string case-insensitively equal to one of the five known role names maps to
the corresponding role, and every other string (the empty string included)
maps to `Unknown`; it never fails. -/
theorem role_classification_total (s : String) :
    (rustToLower s = "mayor" → AgentRole.from_name s = AgentRole.Mayor) ∧
    (rustToLower s = "polecat" → AgentRole.from_name s = AgentRole.Polecat) ∧
    (rustToLower s = "crew" → AgentRole.from_name s = AgentRole.Crew) ∧
    (rustToLower s = "witness" → AgentRole.from_name s = AgentRole.Witness) ∧
    (rustToLower s = "deacon" → AgentRole.from_name s = AgentRole.Deacon) ∧
    (rustToLower s ∉ (["mayor", "polecat", "crew", "witness", "deacon"] : List String) →
      AgentRole.from_name s = AgentRole.Unknown) := by
  refine ⟨fun h => ?_, fun h => ?_, fun h => ?_, fun h => ?_, fun h => ?_, fun h => ?_⟩
  · simp [AgentRole.from_name, h]
  · simp [AgentRole.from_name, h]
  · simp [AgentRole.from_name, h]
  · simp [AgentRole.from_name, h]
  · simp [AgentRole.from_name, h]
  · simp only [List.mem_cons, List.not_mem_nil, or_false, not_or] at h
    obtain ⟨h1, h2, h3, h4, h5⟩ := h
    simp [AgentRole.from_name, h1, h2, h3, h4, h5]

/-- Witness for claim C1 at the inputs "MAYOR" and the empty string. -/
theorem role_classification_total_witness :
    AgentRole.from_name "MAYOR" = AgentRole.Mayor ∧
    AgentRole.from_name "" = AgentRole.Unknown :=
  ⟨(role_classification_total "MAYOR").1 (by decide),
   (role_classification_total "").2.2.2.2.2 (by decide)⟩

/-- Claim C2: for every path whose basename parses successfully, the record
satisfies `instance_id.isSome` iff the basename contains a separator,
`instance_name` is the literal basename, and `role` is determined solely by
the substring before the first separator. -/
theorem parsed_record_invariants (p : Path) (a : AgentDirectory)
    (h : AgentDirectory.from_path p = some a) :
    ∃ dirName : String, p.fileNameStr = some dirName ∧
      a.instance_name = dirName ∧
      (a.instance_id.isSome ↔ '-' ∈ dirName.toList) ∧
      a.role = AgentRole.from_name
        (String.mk (dirName.toList.takeWhile (fun c => c ≠ '-'))) := by
  unfold AgentDirectory.from_path at h
  cases hfn : p.fileName with
  | none => rw [hfn] at h; simp at h
  | some os =>
    rw [hfn] at h
    simp only [Option.bind_eq_bind, Option.some_bind] at h
    cases hts : os.toStr with
    | none => rw [hts] at h; simp at h
    | some dirName =>
      rw [hts] at h
      simp only [Option.some_bind, Option.some.injEq] at h
      subst h
      refine ⟨dirName, ?_, rfl, ?_, ?_⟩
      · simp [Path.fileNameStr, hfn, hts]
      · cases hsp : splitFirst '-' dirName.toList with
        | none =>
          have hnm := splitFirst_eq_none.mp hsp
          simp only [splitn2]
          rw [hsp]
          simpa using hnm
        | some pr =>
          obtain ⟨l, r⟩ := pr
          obtain ⟨hl, _⟩ := splitFirst_eq_some hsp
          simp only [splitn2]
          rw [hsp, hl]
          simp
      · cases hsp : splitFirst '-' dirName.toList with
        | none =>
          have hnm := splitFirst_eq_none.mp hsp
          rw [takeWhile_eq_self_of_not_mem hnm, mk_toList]
          simp only [splitn2]
          rw [hsp]
          rfl
        | some pr =>
          obtain ⟨l, r⟩ := pr
          rw [← splitFirst_fst_eq_takeWhile hsp]
          simp only [splitn2]
          rw [hsp]
          rfl

/-- Witness for claim C2 at the basename "witness-backend". -/
theorem parsed_record_invariants_witness :
    ∃ dirName : String,
      Path.fileNameStr ⟨[OsStr.valid "witness-backend"]⟩ = some dirName ∧
      "witness-backend" = dirName ∧
      ((some "backend" : Option String).isSome ↔ '-' ∈ dirName.toList) ∧
      AgentRole.Witness = AgentRole.from_name
        (String.mk (dirName.toList.takeWhile (fun c => c ≠ '-'))) :=
  parsed_record_invariants ⟨[OsStr.valid "witness-backend"]⟩
    ⟨⟨[OsStr.valid "witness-backend"]⟩, AgentRole.Witness, "witness-backend",
      some "backend"⟩ (by decide)

/-- Claim C3: the parser splits the basename only at the first separator —
writing the basename as a hyphen-free prefix, a hyphen, and an arbitrary
remainder, the role is classified from the prefix and `instance_id` is the
entire remainder, later separators included. -/
theorem split_at_first_separator (p : Path) (pre rest : List Char)
    (a : AgentDirectory)
    (hname : p.fileNameStr = some (String.mk (pre ++ '-' :: rest)))
    (hpre : '-' ∉ pre)
    (h : AgentDirectory.from_path p = some a) :
    a.role = AgentRole.from_name (String.mk pre) ∧
    a.instance_id = some (String.mk rest) := by
  unfold AgentDirectory.from_path at h
  cases hfn : p.fileName with
  | none => rw [hfn] at h; simp at h
  | some os =>
    rw [hfn] at h
    simp only [Option.bind_eq_bind, Option.some_bind] at h
    cases hts : os.toStr with
    | none => rw [hts] at h; simp at h
    | some dirName =>
      rw [hts] at h
      simp only [Option.some_bind, Option.some.injEq] at h
      subst h
      have hd : dirName = String.mk (pre ++ '-' :: rest) := by
        simp only [Path.fileNameStr, hfn, Option.some_bind, hts,
          Option.some.injEq] at hname
        exact hname
      subst hd
      constructor
      · simp only [splitn2, toList_mk]
        rw [splitFirst_append hpre]
        rfl
      · simp only [splitn2, toList_mk]
        rw [splitFirst_append hpre]
        rfl

/-- Witness for claim C3 at the basename "crew-alice-2", which parses to role
`Crew` with `instance_id` "alice-2". -/
theorem split_at_first_separator_witness :
    AgentRole.Crew = AgentRole.from_name (String.mk ['c', 'r', 'e', 'w']) ∧
    (some "alice-2" : Option String) =
      some (String.mk ['a', 'l', 'i', 'c', 'e', '-', '2']) :=
  split_at_first_separator ⟨[OsStr.valid "crew-alice-2"]⟩
    ['c', 'r', 'e', 'w'] ['a', 'l', 'i', 'c', 'e', '-', '2']
    ⟨⟨[OsStr.valid "crew-alice-2"]⟩, AgentRole.Crew, "crew-alice-2",
      some "alice-2"⟩ (by decide) (by decide) (by decide)

/-- Claim C4: `from_path` fails exactly when the path has no extractable
textual basename; for every path with a textual basename it succeeds, even
for an unrecognized role-prefix — "unknown-role" parses to role `Unknown`
with `instance_id` some "role". -/
theorem from_path_failure (p : Path) :
    (AgentDirectory.from_path p = none ↔ p.fileNameStr = none) ∧
    (∀ s, p.fileNameStr = some s → ∃ a, AgentDirectory.from_path p = some a) ∧
    AgentDirectory.from_path ⟨[OsStr.valid "unknown-role"]⟩ =
      some ⟨⟨[OsStr.valid "unknown-role"]⟩, AgentRole.Unknown, "unknown-role",
            some "role"⟩ := by
  refine ⟨?_, ?_, by decide⟩
  · unfold AgentDirectory.from_path Path.fileNameStr
    cases hfn : p.fileName with
    | none => simp
    | some os =>
      cases hts : os.toStr with
      | none => simp [hts]
      | some dirName => simp [hts]
  · intro s hs
    simp only [Path.fileNameStr] at hs
    cases hfn : p.fileName with
    | none => rw [hfn] at hs; simp at hs
    | some os =>
      rw [hfn] at hs
      simp only [Option.some_bind] at hs
      refine ⟨⟨p, AgentRole.from_name ((splitn2 s '-').headD ""), s,
        (splitn2 s '-')[1]?⟩, ?_⟩
      unfold AgentDirectory.from_path
      rw [hfn]
      simp only [Option.bind_eq_bind, Option.some_bind]
      rw [hs]
      simp only [Option.some_bind]

/-- Witness for claim C4 at the basename "unknown-role". -/
theorem from_path_failure_witness :
    ∃ a, AgentDirectory.from_path ⟨[OsStr.valid "unknown-role"]⟩ = some a :=
  (from_path_failure ⟨[OsStr.valid "unknown-role"]⟩).2.1 "unknown-role" (by decide)

/-- Claim C5: for every filesystem state and configuration, every record in
the list returned by `discover_agents` has a role different from `Unknown`. -/
theorem discovery_excludes_unknown (env : Env) (d : AgentDiscovery)
    (a : AgentDirectory) (h : a ∈ AgentDiscovery.discover_agents env d) :
    a.role ≠ AgentRole.Unknown := by
  obtain ⟨dir, hmem⟩ := mem_discover_agents h
  exact mem_scan_role_ne_unknown hmem

/-- Witness for claim C5 at the example environment, where the `mayor` record
is discovered. -/
theorem discovery_excludes_unknown_witness :
    (⟨exampleMayorPath, AgentRole.Mayor, "mayor", none⟩ : AgentDirectory).role ≠
      AgentRole.Unknown :=
  discovery_excludes_unknown exampleEnv exampleDiscovery
    ⟨exampleMayorPath, AgentRole.Mayor, "mayor", none⟩ (by decide)

/-- Claim C6: discovery never surfaces an error — a missing home directory,
a missing agents sub-path, an unconfigured or nonexistent Gas-Town root, an
unreadable directory and unreadable entry metadata each contribute zero
records, and a failing source never aborts the pass: the combined result is
still a plain list built from the remaining source. -/
theorem discovery_never_fails (env : Env) (d : AgentDiscovery) :
    (env.home_dir = none → AgentDiscovery.discover_standalone_agents env = none) ∧
    (∀ home, env.home_dir = some home →
      env.fs.pathExists ((home.join ".gazetown").join "agents") = false →
      AgentDiscovery.discover_standalone_agents env = none) ∧
    (d.gastown_root = none → AgentDiscovery.discover_rig_agents env d = none) ∧
    (∀ root, d.gastown_root = some root → env.fs.pathExists root = false →
      AgentDiscovery.discover_rig_agents env d = none) ∧
    (∀ root, d.gastown_root = some root → env.fs.pathExists root = true →
      env.fs.read_dir root = none →
      AgentDiscovery.discover_rig_agents env d = some []) ∧
    (∀ dir, env.fs.read_dir dir = none →
      AgentDiscovery.scan_agents_directory env.fs dir = []) ∧
    (∀ e : DirEntry, e.metadata = none → processEntry (some e) = none) ∧
    (AgentDiscovery.discover_standalone_agents env = none →
      AgentDiscovery.discover_agents env d =
        (AgentDiscovery.discover_rig_agents env d).getD []) ∧
    (AgentDiscovery.discover_rig_agents env d = none →
      AgentDiscovery.discover_agents env d =
        (AgentDiscovery.discover_standalone_agents env).getD []) := by
  refine ⟨?_, ?_, ?_, ?_, ?_, ?_, ?_, ?_, ?_⟩
  · intro hh
    unfold AgentDiscovery.discover_standalone_agents
    rw [hh]
    rfl
  · intro home hh hex
    unfold AgentDiscovery.discover_standalone_agents
    rw [hh]
    simp [hex]
  · intro hr
    unfold AgentDiscovery.discover_rig_agents
    rw [hr]
    rfl
  · intro root hr hex
    unfold AgentDiscovery.discover_rig_agents
    rw [hr]
    simp [hex]
  · intro root hr hex hrd
    unfold AgentDiscovery.discover_rig_agents
    rw [hr]
    simp [hex, hrd]
  · intro dir hrd
    unfold AgentDiscovery.scan_agents_directory
    rw [hrd]
  · intro e hmd
    simp [processEntry, hmd]
  · intro hstd
    unfold AgentDiscovery.discover_agents
    rw [hstd]
    cases AgentDiscovery.discover_rig_agents env d <;> simp
  · intro hrig
    unfold AgentDiscovery.discover_agents
    rw [hrig]
    cases AgentDiscovery.discover_standalone_agents env <;> simp

/-- Witness for claim C6 at the example environment (no home directory). -/
theorem discovery_never_fails_witness :
    AgentDiscovery.discover_standalone_agents exampleEnv = none :=
  (discovery_never_fails exampleEnv exampleDiscovery).1 rfl

/-- Claim C7: for every filesystem state, combined discovery is exactly the
standalone records followed by the rig records, and its length is the
standalone count plus the rig count — no de-duplication. -/
theorem combined_is_concat (env : Env) (d : AgentDiscovery) :
    AgentDiscovery.discover_agents env d =
      (AgentDiscovery.discover_standalone_agents env).getD [] ++
        (AgentDiscovery.discover_rig_agents env d).getD [] ∧
    (AgentDiscovery.discover_agents env d).length =
      ((AgentDiscovery.discover_standalone_agents env).getD []).length +
        ((AgentDiscovery.discover_rig_agents env d).getD []).length := by
  have h : AgentDiscovery.discover_agents env d =
      (AgentDiscovery.discover_standalone_agents env).getD [] ++
        (AgentDiscovery.discover_rig_agents env d).getD [] := by
    unfold AgentDiscovery.discover_agents
    cases AgentDiscovery.discover_standalone_agents env <;>
      cases AgentDiscovery.discover_rig_agents env d <;> simp
  exact ⟨h, by rw [h, List.length_append]⟩

/-- Claim C8: a rig directory containing a `.agents` folder contributes that
folder's scan and a rig directory lacking one contributes nothing; on the
spec's example layout (one rig with `.agents` holding `mayor` and
`polecat-1`, one rig without), the rig scan yields exactly those two
records. -/
theorem rig_scan_per_rig (fs : Fs) (entry : DirEntry) (md : Metadata)
    (hmd : entry.metadata = some md) (hdir : md.is_dir = true) :
    (fs.pathExists (entry.path.join ".agents") = true →
      rigEntry fs (some entry) =
        AgentDiscovery.scan_agents_directory fs (entry.path.join ".agents")) ∧
    (fs.pathExists (entry.path.join ".agents") = false →
      rigEntry fs (some entry) = []) ∧
    AgentDiscovery.discover_rig_agents exampleEnv exampleDiscovery =
      some [⟨exampleMayorPath, AgentRole.Mayor, "mayor", none⟩,
            ⟨examplePolecatPath, AgentRole.Polecat, "polecat-1", some "1"⟩] := by
  refine ⟨?_, ?_, by decide⟩
  · intro hex
    simp [rigEntry, hmd, hdir, hex]
  · intro hex
    simp [rigEntry, hmd, hdir, hex]

/-- Witness for claim C8: the example rig without a `.agents` folder
contributes nothing. -/
theorem rig_scan_per_rig_witness :
    rigEntry exampleFs (some ⟨exampleRig2, some ⟨true⟩⟩) = [] :=
  (rig_scan_per_rig exampleFs ⟨exampleRig2, some ⟨true⟩⟩ ⟨true⟩ rfl rfl).2.1
    (by decide)

/-- Counterexample to claim C9 as stated: at s = "wıtness" (with
U+0131, dotless i) the program classifies the uppercased string — which
Rust's Unicode tables turn into "WITNESS" — as `Witness`, while the string
itself lowercases to "wıtness" and classifies as `Unknown`, so uppercasing
changes the classification. -/
theorem role_classification_case_insensitive_cex :
    AgentRole.from_name (rustToUpper "wıtness") = AgentRole.Witness ∧
    AgentRole.from_name "wıtness" = AgentRole.Unknown ∧
    AgentRole.from_name (rustToUpper "wıtness") ≠ AgentRole.from_name "wıtness" :=
  ⟨by decide, by decide, by decide⟩

/-- Claim C9 as amended: for every string, classifying its lowercased form
yields the same role as classifying the string itself; classifying its
uppercased form also does whenever the string contains only ASCII
characters (non-ASCII input such as U+0131 can uppercase into the lexicon
and change the classification). -/
theorem role_classification_case_insensitive_amended (s : String) :
    AgentRole.from_name (rustToLower s) = AgentRole.from_name s ∧
    ((∀ c ∈ s.toList, c.toNat < 128) →
      AgentRole.from_name (rustToUpper s) = AgentRole.from_name s) := by
  constructor
  · simp only [AgentRole.from_name, rustToLower_rustToLower]
  · intro h
    simp only [AgentRole.from_name, rustToLower_rustToUpper_of_ascii h]

/-- Witness for the amended claim C9 at the ASCII input "Crew". -/
theorem role_classification_case_insensitive_amended_witness :
    AgentRole.from_name (rustToUpper "Crew") = AgentRole.from_name "Crew" :=
  (role_classification_case_insensitive_amended "Crew").2 (by decide)

/-- Claim C10: for every role, `Unknown` included, classifying its canonical
display name yields the role back. -/
theorem display_roundtrip (r : AgentRole) :
    AgentRole.from_name r.display = r := by
  cases r <;> decide

end Belvedere
